import Mathlib

/-!
Verification development for the squeaknode repository.

The development shallowly embeds, in Lean, the parts of the code that the
checked properties are about:

* the squeak exchange engine (squeaknode/core/squeak_core.py): make_squeak,
  create_offer, package_offer, unpack_offer, pay_offer, get_received_payments;
* the connection manager (squeaknode/network/connection_manager.py);
* the sent-offers verifier loop (squeaknode/node/sent_offers_verifier.py).

Byte strings are modelled as lists of naturals (one natural per byte,
big-endian).  The external collaborators (Bitcoin client, Lightning client,
the squeak crypto library, the wall clock, the random nonce generator) are
modelled as explicit function-valued fields of the embedded state, so every
operation is a pure function of its inputs and of the collaborator record.
-/

/-- Byte strings, one natural number per byte, most significant byte first. -/
abbrev Bytes := List Nat

/-- Big-endian interpretation of a byte string as a natural number, as
int.from_bytes does for byteorder big. -/
def bytesToNat (bs : Bytes) : Nat :=
  bs.foldl (fun acc b => acc * 256 + b) 0

/-- Big-endian encoding of a natural number on a fixed number of bytes, as
int.to_bytes does (the value is reduced modulo 256 ^ length). -/
def natToBytes : Nat → Nat → Bytes
  | 0, _ => []
  | k + 1, n => natToBytes k (n / 256) ++ [n % 256]

/-- Order of the secp256k1 group, the curve order the tweak arithmetic of the
sale protocol reduces by. -/
def curveOrder : Nat :=
  115792089237316195423570985008687907852837564279074904382605163141518161494337

/-- Modelled from the spec: add_tweak of squeaknode/core/util.py is not under
src; section 4.1 of the spec describes it as scalar addition modulo the curve
order on 32-byte big-endian scalars. -/
def add_tweak (n tweak : Bytes) : Bytes :=
  natToBytes 32 ((bytesToNat n + bytesToNat tweak) % curveOrder)

/-- Modelled from the spec: subtract_tweak of squeaknode/core/util.py is not
under src; section 4.1 of the spec describes it as scalar subtraction modulo
the curve order on 32-byte big-endian scalars. -/
def subtract_tweak (n tweak : Bytes) : Bytes :=
  natToBytes 32 ((bytesToNat n + (curveOrder - bytesToNat tweak % curveOrder)) % curveOrder)

/-- In-range 32-byte scalar: 32 bytes, each below 256, and a value below the
curve order (the range generate_tweak draws from and secret keys live in). -/
abbrev ValidScalar (bs : Bytes) : Prop :=
  bs.length = 32 ∧ (∀ b ∈ bs, b < 256) ∧ bytesToNat bs < curveOrder

theorem bytesToNat_append_singleton (l : Bytes) (x : Nat) :
    bytesToNat (l ++ [x]) = bytesToNat l * 256 + x := by
  simp [bytesToNat, List.foldl_append]

theorem natToBytes_length (k n : Nat) : (natToBytes k n).length = k := by
  induction k generalizing n with
  | zero => simp [natToBytes]
  | succ k ih => simp [natToBytes, ih]

theorem bytesToNat_natToBytes (k n : Nat) (h : n < 256 ^ k) :
    bytesToNat (natToBytes k n) = n := by
  induction k generalizing n with
  | zero =>
    simp [natToBytes, bytesToNat]
    omega
  | succ k ih =>
    rw [natToBytes, bytesToNat_append_singleton, ih]
    · have hdm := Nat.div_add_mod n 256
      omega
    · rw [pow_succ] at h
      exact (Nat.div_lt_iff_lt_mul (by norm_num)).mpr h

theorem natToBytes_bytesToNat (a : Bytes) (hb : ∀ b ∈ a, b < 256) :
    natToBytes a.length (bytesToNat a) = a := by
  induction a using List.reverseRecOn with
  | nil => simp [natToBytes, bytesToNat]
  | append_singleton l x ih =>
    have hx : x < 256 := hb x (by simp)
    have hl : ∀ b ∈ l, b < 256 := fun b hbl => hb b (by simp [hbl])
    rw [List.length_append, List.length_singleton, natToBytes,
      bytesToNat_append_singleton]
    have hdiv : (bytesToNat l * 256 + x) / 256 = bytesToNat l := by
      rw [Nat.add_comm, Nat.mul_comm, Nat.add_mul_div_left _ _ (by norm_num),
        Nat.div_eq_of_lt hx, Nat.zero_add]
    have hmod : (bytesToNat l * 256 + x) % 256 = x := by
      rw [Nat.add_comm, Nat.add_mul_mod_self_right, Nat.mod_eq_of_lt hx]
    rw [hdiv, hmod, ih hl]

theorem curveOrder_pos : 0 < curveOrder := by norm_num [curveOrder]

theorem curveOrder_le_pow : curveOrder ≤ 256 ^ 32 := by norm_num [curveOrder]

/-- Round trip of the tweak arithmetic: subtracting the tweak recovers the
original in-range scalar. -/
theorem tweak_roundtrip (a t : Bytes) (ha : ValidScalar a) (ht : ValidScalar t) :
    subtract_tweak (add_tweak a t) t = a := by
  obtain ⟨la, ba, va⟩ := ha
  obtain ⟨lt, bt, vt⟩ := ht
  rw [add_tweak, subtract_tweak]
  rw [bytesToNat_natToBytes 32 _
    (lt_of_lt_of_le (Nat.mod_lt _ curveOrder_pos) curveOrder_le_pow)]
  rw [Nat.mod_eq_of_lt vt, Nat.mod_add_mod]
  have hsum : bytesToNat a + bytesToNat t + (curveOrder - bytesToNat t)
      = bytesToNat a + curveOrder := by omega
  rw [hsum, Nat.add_mod_right, Nat.mod_eq_of_lt va]
  have := natToBytes_bytesToNat a ba
  rw [la] at this
  exact this

/-- Host and port of a lightning node (squeaknode/core/lightning_address.py). -/
structure LightningAddressHostPort where
  host : String
  port : Nat
  deriving DecidableEq, Repr

/-- Host and port of a peer (squeaknode/core/peer_address.py). -/
structure PeerAddress where
  host : String
  port : Nat
  deriving DecidableEq, Repr

/-- Abstract squeak (class CSqueak of the external squeak library): the
embedding only needs its canonical-serialization digest and its payment
point, so the squeak is modelled by those two values. -/
structure CSqueak where
  hash : Bytes
  paymentPoint : Bytes
  deriving DecidableEq, Repr

/-- Modelled from the spec: get_hash of squeaknode/core/util.py is not under
src; the spec describes it as the canonical-serialization digest of the
squeak, which the abstract squeak carries as its hash field. -/
def get_hash (squeak : CSqueak) : Bytes :=
  squeak.hash

/-- Signing key wrapper (class CSigningKey of the external squeak library);
built from the decoded private key string. -/
structure CSigningKey where
  key : String
  deriving DecidableEq, Repr

/-- Profile of a squeak author (squeaknode/core/squeak_profile.py); only the
field the embedded operations consume is modelled.  A signing profile has a
private key, a contact profile does not. -/
structure SqueakProfile where
  private_key : Option String
  deriving DecidableEq, Repr

/-- Seller-side record of an offer (squeaknode/core/sent_offer.py). -/
structure SentOffer where
  sent_offer_id : Option Nat
  squeak_hash : Bytes
  payment_hash : Bytes
  secret_key : Bytes
  nonce : Bytes
  price_msat : Nat
  payment_request : String
  invoice_time : Nat
  invoice_expiry : Nat
  peer_address : PeerAddress
  deriving DecidableEq, Repr

/-- Wire offer message (squeaknode/core/offer.py). -/
structure Offer where
  squeak_hash : Bytes
  nonce : Bytes
  payment_request : String
  host : String
  port : Nat
  deriving DecidableEq, Repr

/-- Buyer-side record of an offer (squeaknode/core/received_offer.py). -/
structure ReceivedOffer where
  received_offer_id : Option Nat
  squeak_hash : Bytes
  price_msat : Nat
  payment_hash : Bytes
  nonce : Bytes
  payment_point : Bytes
  invoice_timestamp : Nat
  invoice_expiry : Nat
  payment_request : String
  destination : String
  lightning_address : LightningAddressHostPort
  peer_address : PeerAddress
  deriving DecidableEq, Repr

/-- Buyer-side record of a payment (squeaknode/core/sent_payment.py). -/
structure SentPayment where
  sent_payment_id : Option Nat
  created_time_ms : Option Nat
  peer_address : PeerAddress
  squeak_hash : Bytes
  payment_hash : Bytes
  secret_key : Bytes
  price_msat : Nat
  node_pubkey : String
  valid : Bool
  deriving DecidableEq, Repr

/-- Seller-side record of a settled payment (squeaknode/core/received_payment.py). -/
structure ReceivedPayment where
  received_payment_id : Option Nat
  created_time_ms : Option Nat
  squeak_hash : Bytes
  payment_hash : Bytes
  price_msat : Nat
  settle_index : Nat
  peer_address : PeerAddress
  deriving DecidableEq, Repr

/-- Response of LightningClient.add_invoice. -/
structure AddInvoiceResponse where
  r_hash : Bytes
  payment_request : String
  deriving DecidableEq, Repr

/-- Response of LightningClient.lookup_invoice. -/
structure LookupInvoiceResponse where
  creation_date : Nat
  expiry : Nat
  deriving DecidableEq, Repr

/-- Response of LightningClient.decode_pay_req.  The payment hash is carried
as bytes; the hex decoding bytes.fromhex applied by unpack_offer to the wire
field is absorbed into the abstract client. -/
structure PayReq where
  payment_hash : Bytes
  num_msat : Nat
  destination : String
  timestamp : Nat
  expiry : Nat
  deriving DecidableEq, Repr

/-- Response of LightningClient.pay_invoice_sync.  An empty preimage (empty
byte string, falsy in Python) signals payment failure. -/
structure Payment where
  payment_preimage : Bytes
  payment_error : String
  deriving DecidableEq, Repr

/-- Response of LightningClient.get_info. -/
structure GetInfoResponse where
  uris : List String
  deriving DecidableEq, Repr

/-- One invoice delivered by the subscribe_invoices stream. -/
structure Invoice where
  r_hash : Bytes
  settle_index : Nat
  settled : Bool
  deriving DecidableEq, Repr

/-- How an invoice subscription stream terminates after delivering its
invoices: normal exhaustion, a grpc RpcError whose code is CANCELLED (the
stream was cancelled), or a grpc RpcError with any other code. -/
inductive StreamTermination where
  | exhausted
  | rpcCancelled
  | rpcFailed
  deriving DecidableEq, Repr

/-- A run of the subscribe_invoices streaming RPC: the invoices it delivers
followed by how it terminates. -/
structure InvoiceStream where
  invoices : List Invoice
  termination : StreamTermination
  deriving DecidableEq, Repr

/-- Abstract Lightning client (squeaknode/lightning/lnd_lightning_client.py
wraps the external lnd node): each RPC is a function field, so a concrete
record fixes the behaviour of the collaborator for a run. -/
structure LightningClient where
  add_invoice : Bytes → Nat → AddInvoiceResponse
  lookup_invoice : Bytes → LookupInvoiceResponse
  decode_pay_req : String → PayReq
  pay_invoice_sync : String → Payment
  get_info : GetInfoResponse
  subscribe_invoices : Nat → InvoiceStream

/-- Best-block information returned by the Bitcoin client. -/
structure BlockInfo where
  block_height : Nat
  block_hash : Bytes
  deriving DecidableEq, Repr

/-- Abstract Bitcoin client (squeaknode/bitcoin/bitcoin_client.py). -/
structure BitcoinClient where
  get_best_block_info : BlockInfo

/-- Errors raised by the embedded squeak core operations, named as in
section 7 of the spec (the Python code raises plain Exception with a
message). -/
inductive CoreError where
  | profileNotSigning
  | offerHashMismatch (offerHash squeakHash : Bytes)
  | paymentFailed (err : String)
  | invoiceSubscriptionError
  | valueError
  deriving DecidableEq, Repr

/-- State of class SqueakCore (squeaknode/core/squeak_core.py) together with
its modelled ambient collaborators: the wall clock consulted by time.time,
the output of the random generate_tweak call, the payment-point derivation
payment_point_bytes_from_scalar_bytes of the external squeak library, and
MakeSqueakFromStr of the external squeak library. -/
structure SqueakCore where
  bitcoin_client : BitcoinClient
  lightning_client : LightningClient
  now : Nat
  generated_tweak : Bytes
  payment_point_from_scalar : Bytes → Bytes
  make_squeak_from_str : CSigningKey → String → Nat → Bytes → Nat → Option Bytes → CSqueak × Bytes

/-- SqueakCore.make_squeak: refuse contact profiles, otherwise build the
squeak from the current best block and the current timestamp. -/
def SqueakCore.make_squeak (core : SqueakCore) (signing_profile : SqueakProfile)
    (content_str : String) (replyto_hash : Option Bytes) :
    Except CoreError (CSqueak × Bytes) :=
  match signing_profile.private_key with
  | none => Except.error CoreError.profileNotSigning
  | some signing_key_str =>
    let signing_key : CSigningKey := { key := signing_key_str }
    let block_info := core.bitcoin_client.get_best_block_info
    let block_height := block_info.block_height
    let block_hash := block_info.block_hash
    let timestamp := core.now
    Except.ok (core.make_squeak_from_str signing_key content_str block_height
      block_hash timestamp replyto_hash)

/-- SqueakCore.create_offer: tweak the secret key with a fresh nonce into the
invoice preimage, create the invoice, and record the sale. -/
def SqueakCore.create_offer (core : SqueakCore) (squeak : CSqueak)
    (secret_key : Bytes) (peer_address : PeerAddress) (price_msat : Nat) :
    SentOffer :=
  let squeak_hash := get_hash squeak
  let nonce := core.generated_tweak
  let preimage := add_tweak secret_key nonce
  let add_invoice_response := core.lightning_client.add_invoice preimage price_msat
  let payment_hash := add_invoice_response.r_hash
  let invoice_payment_request := add_invoice_response.payment_request
  let lookup_invoice_response := core.lightning_client.lookup_invoice payment_hash
  let invoice_time := lookup_invoice_response.creation_date
  let invoice_expiry := lookup_invoice_response.expiry
  { sent_offer_id := none
    squeak_hash := squeak_hash
    payment_hash := payment_hash
    secret_key := preimage
    nonce := nonce
    price_msat := price_msat
    payment_request := invoice_payment_request
    invoice_time := invoice_time
    invoice_expiry := invoice_expiry
    peer_address := peer_address }

/-- Parse one uri of get_info as pubkey at host colon port, as the loop body
of SqueakCore.get_lnd_external_address does; a shape or number parse failure
raises (Python ValueError). -/
def parseLightningUri (uri : String) : Except CoreError LightningAddressHostPort :=
  match uri.splitOn "@" with
  | [_pubkey, address] =>
    match address.splitOn ":" with
    | [host, port_str] =>
      match port_str.toNat? with
      | some port => Except.ok { host := host, port := port }
      | none => Except.error CoreError.valueError
    | _ => Except.error CoreError.valueError
  | _ => Except.error CoreError.valueError

/-- SqueakCore.get_lnd_external_address: return the parse of the first uri of
get_info if any, None otherwise. -/
def SqueakCore.get_lnd_external_address (core : SqueakCore) :
    Except CoreError (Option LightningAddressHostPort) :=
  match core.lightning_client.get_info.uris with
  | [] => Except.ok none
  | uri :: _ =>
    match parseLightningUri uri with
    | Except.ok a => Except.ok (some a)
    | Except.error e => Except.error e

/-- SqueakCore.package_offer: fill the wire offer, falling back to the lnd
external address, then to empty host and port zero. -/
def SqueakCore.package_offer (core : SqueakCore) (sent_offer : SentOffer)
    (lnd_external_address : Option LightningAddressHostPort) :
    Except CoreError Offer :=
  match (match lnd_external_address with
         | some a => Except.ok (some a)
         | none => core.get_lnd_external_address) with
  | Except.error e => Except.error e
  | Except.ok addr =>
    Except.ok
      { squeak_hash := sent_offer.squeak_hash
        nonce := sent_offer.nonce
        payment_request := sent_offer.payment_request
        host := match addr with | some a => a.host | none => ""
        port := match addr with | some a => a.port | none => 0 }

/-- SqueakCore.unpack_offer: reject a hash mismatch, otherwise decode the
payment request and fill the buyer-side record. -/
def SqueakCore.unpack_offer (core : SqueakCore) (squeak : CSqueak)
    (offer : Offer) (peer_address : PeerAddress) :
    Except CoreError ReceivedOffer :=
  let squeak_hash := get_hash squeak
  if squeak_hash ≠ offer.squeak_hash then
    Except.error (CoreError.offerHashMismatch offer.squeak_hash squeak_hash)
  else
    let pay_req := core.lightning_client.decode_pay_req offer.payment_request
    let squeak_payment_point := squeak.paymentPoint
    let payment_hash := pay_req.payment_hash
    let price_msat := pay_req.num_msat
    let destination := pay_req.destination
    let invoice_timestamp := pay_req.timestamp
    let invoice_expiry := pay_req.expiry
    let lightning_address : LightningAddressHostPort :=
      { host := if offer.host = "" then peer_address.host else offer.host
        port := offer.port }
    Except.ok
      { received_offer_id := none
        squeak_hash := squeak_hash
        price_msat := price_msat
        payment_hash := payment_hash
        nonce := offer.nonce
        payment_point := squeak_payment_point
        invoice_timestamp := invoice_timestamp
        invoice_expiry := invoice_expiry
        payment_request := offer.payment_request
        destination := destination
        lightning_address := lightning_address
        peer_address := peer_address }

/-- SqueakCore.pay_offer: pay the invoice, fail on an empty preimage, else
recover the secret key with subtract_tweak and record the payment together
with the validity of the recovered key. -/
def SqueakCore.pay_offer (core : SqueakCore) (received_offer : ReceivedOffer) :
    Except CoreError SentPayment :=
  let payment := core.lightning_client.pay_invoice_sync received_offer.payment_request
  let preimage := payment.payment_preimage
  if preimage = [] then
    Except.error (CoreError.paymentFailed payment.payment_error)
  else
    let nonce := received_offer.nonce
    let secret_key := subtract_tweak preimage nonce
    let point := core.payment_point_from_scalar secret_key
    let valid := point == received_offer.payment_point
    let peer_address : PeerAddress :=
      { host := received_offer.peer_address.host
        port := received_offer.peer_address.port }
    Except.ok
      { sent_payment_id := none
        created_time_ms := none
        peer_address := peer_address
        squeak_hash := received_offer.squeak_hash
        payment_hash := received_offer.payment_hash
        secret_key := secret_key
        price_msat := received_offer.price_msat
        node_pubkey := received_offer.destination
        valid := valid }

/-- One yielded element of the get_payment_stream generator. -/
def mkReceivedPayment (sent_offer : SentOffer) (settle_index : Nat) :
    ReceivedPayment :=
  { received_payment_id := none
    created_time_ms := none
    squeak_hash := sent_offer.squeak_hash
    payment_hash := sent_offer.payment_hash
    price_msat := sent_offer.price_msat
    settle_index := settle_index
    peer_address := sent_offer.peer_address }

/-- The get_payment_stream generator inside SqueakCore.get_received_payments:
walk the invoice stream, yield a ReceivedPayment for each settled invoice,
and translate the termination of the stream (a CANCELLED RpcError is
swallowed, any other RpcError becomes InvoiceSubscriptionError).  The result
is the list of yielded payments together with the terminal error, if any. -/
def get_payment_stream (get_sent_offer_fn : Bytes → SentOffer) :
    List Invoice → StreamTermination → List ReceivedPayment × Option CoreError
  | [], t =>
    ([], match t with
         | StreamTermination.rpcFailed => some CoreError.invoiceSubscriptionError
         | _ => none)
  | invoice :: rest, t =>
    let tail := get_payment_stream get_sent_offer_fn rest t
    if invoice.settled then
      (mkReceivedPayment (get_sent_offer_fn invoice.r_hash) invoice.settle_index :: tail.1,
       tail.2)
    else
      tail

/-- SqueakCore.get_received_payments: subscribe from the given settle index
and run the generator over the delivered stream.  The cancel callback of the
returned ReceivedPaymentsStream is an IO action and is modelled through the
rpcCancelled stream termination. -/
def SqueakCore.get_received_payments (core : SqueakCore)
    (latest_settle_index : Nat) (get_sent_offer_fn : Bytes → SentOffer) :
    List ReceivedPayment × Option CoreError :=
  let invoice_stream := core.lightning_client.subscribe_invoices latest_settle_index
  get_payment_stream get_sent_offer_fn invoice_stream.invoices invoice_stream.termination

theorem package_offer_fields (core : SqueakCore) (so : SentOffer)
    (ea : Option LightningAddressHostPort) (offer : Offer)
    (h : core.package_offer so ea = Except.ok offer) :
    offer.squeak_hash = so.squeak_hash ∧ offer.nonce = so.nonce ∧
      offer.payment_request = so.payment_request := by
  unfold SqueakCore.package_offer at h
  split at h
  · exact absurd h (by simp)
  · rw [Except.ok.injEq] at h
    subst h
    exact ⟨rfl, rfl, rfl⟩

/-- C2: unpack_offer rejects any offer whose squeak_hash differs from the
hash of the squeak with the hash-mismatch error; the result holds for every
core, so the offending call performs no payment-request decoding (the
lightning client is never consulted) and produces no ReceivedOffer. -/
theorem unpack_offer_hash_mismatch (core : SqueakCore) (squeak : CSqueak)
    (offer : Offer) (peer_address : PeerAddress)
    (h : get_hash squeak ≠ offer.squeak_hash) :
    core.unpack_offer squeak offer peer_address =
      Except.error (CoreError.offerHashMismatch offer.squeak_hash (get_hash squeak)) := by
  simp [SqueakCore.unpack_offer, h]

/-- C3: pay_offer fails with PaymentFailed carrying the payment_error exactly
when pay_invoice_sync returns an empty preimage, in which case no SentPayment
is produced; with a non-empty preimage a SentPayment is always returned, with
the valid flag computed from the recovered key whether or not it matches the
expected payment point. -/
theorem pay_offer_spec (core : SqueakCore) (ro : ReceivedOffer) :
    core.pay_offer ro =
      if (core.lightning_client.pay_invoice_sync ro.payment_request).payment_preimage = [] then
        Except.error (CoreError.paymentFailed
          (core.lightning_client.pay_invoice_sync ro.payment_request).payment_error)
      else
        Except.ok
          { sent_payment_id := none
            created_time_ms := none
            peer_address := { host := ro.peer_address.host, port := ro.peer_address.port }
            squeak_hash := ro.squeak_hash
            payment_hash := ro.payment_hash
            secret_key := subtract_tweak
              (core.lightning_client.pay_invoice_sync ro.payment_request).payment_preimage ro.nonce
            price_msat := ro.price_msat
            node_pubkey := ro.destination
            valid := core.payment_point_from_scalar
                (subtract_tweak
                  (core.lightning_client.pay_invoice_sync ro.payment_request).payment_preimage
                  ro.nonce)
              == ro.payment_point } := rfl

/-- C4: make_squeak on a profile without a private key fails with
ProfileNotSigning, for every core, so no Bitcoin-client call is observable
and no squeak is produced; with a private key present the produced squeak is
exactly the one built from the current best block height and hash and the
current wall-clock timestamp. -/
theorem make_squeak_spec :
    (∀ (core : SqueakCore) (profile : SqueakProfile) (content : String)
       (replyto : Option Bytes),
       profile.private_key = none →
       core.make_squeak profile content replyto =
         Except.error CoreError.profileNotSigning) ∧
    (∀ (core : SqueakCore) (profile : SqueakProfile) (content : String)
       (replyto : Option Bytes) (pk : String),
       profile.private_key = some pk →
       core.make_squeak profile content replyto =
         Except.ok (core.make_squeak_from_str { key := pk } content
           core.bitcoin_client.get_best_block_info.block_height
           core.bitcoin_client.get_best_block_info.block_hash
           core.now replyto)) := by
  constructor
  · intro core profile content replyto h
    simp [SqueakCore.make_squeak, h]
  · intro core profile content replyto pk h
    simp [SqueakCore.make_squeak, h]

/-- C5: with no explicit external address and an empty uris list from
get_info, package_offer emits host empty and port zero; and unpack_offer
fills the lightning address host from the offer when non-empty and from the
peer address otherwise, always taking the port from the offer. -/
theorem offer_address_fallback :
    (∀ (core : SqueakCore) (so : SentOffer),
       core.lightning_client.get_info.uris = [] →
       core.package_offer so none =
         Except.ok
           { squeak_hash := so.squeak_hash
             nonce := so.nonce
             payment_request := so.payment_request
             host := ""
             port := 0 }) ∧
    (∀ (core : SqueakCore) (squeak : CSqueak) (offer : Offer) (pa : PeerAddress),
       get_hash squeak = offer.squeak_hash →
       ∃ ro, core.unpack_offer squeak offer pa = Except.ok ro ∧
         ro.lightning_address =
           { host := if offer.host = "" then pa.host else offer.host
             port := offer.port }) := by
  constructor
  · intro core so h
    simp [SqueakCore.package_offer, SqueakCore.get_lnd_external_address, h]
  · intro core squeak offer pa h
    have hro : core.unpack_offer squeak offer pa =
        Except.ok
          { received_offer_id := none
            squeak_hash := offer.squeak_hash
            price_msat := (core.lightning_client.decode_pay_req offer.payment_request).num_msat
            payment_hash := (core.lightning_client.decode_pay_req offer.payment_request).payment_hash
            nonce := offer.nonce
            payment_point := squeak.paymentPoint
            invoice_timestamp := (core.lightning_client.decode_pay_req offer.payment_request).timestamp
            invoice_expiry := (core.lightning_client.decode_pay_req offer.payment_request).expiry
            payment_request := offer.payment_request
            destination := (core.lightning_client.decode_pay_req offer.payment_request).destination
            lightning_address :=
              { host := if offer.host = "" then pa.host else offer.host
                port := offer.port }
            peer_address := pa } := by
      simp [SqueakCore.unpack_offer, h]
    exact ⟨_, hro, rfl⟩

/-- C1: key-recovery law.  A run of create_offer stores as preimage the
tweak-added secret key; whenever the buyer successfully pays the offer
obtained by unpacking the packaged sent offer (the lightning payment reveals
that stored preimage), the resulting SentPayment carries exactly the
original secret key of the seller and a true valid flag.  The second
conjunct is the algebraic round trip the protocol rests on: subtracting the
tweak after adding it recovers every in-range 32-byte scalar. -/
theorem key_recovery_law :
    (∀ (seller buyer : SqueakCore) (squeak : CSqueak) (secret_key : Bytes)
       (seller_peer buyer_peer : PeerAddress) (price_msat : Nat)
       (ext : Option LightningAddressHostPort) (offer : Offer),
       ValidScalar secret_key →
       ValidScalar seller.generated_tweak →
       squeak.paymentPoint = buyer.payment_point_from_scalar secret_key →
       seller.package_offer (seller.create_offer squeak secret_key seller_peer price_msat) ext
         = Except.ok offer →
       (buyer.lightning_client.pay_invoice_sync
           (seller.create_offer squeak secret_key seller_peer price_msat).payment_request).payment_preimage
         = (seller.create_offer squeak secret_key seller_peer price_msat).secret_key →
       ∃ ro sp,
         buyer.unpack_offer squeak offer buyer_peer = Except.ok ro ∧
         buyer.pay_offer ro = Except.ok sp ∧
         sp.secret_key = secret_key ∧ sp.valid = true) ∧
    (∀ a t : Bytes, ValidScalar a → ValidScalar t →
       subtract_tweak (add_tweak a t) t = a) := by
  constructor
  · intro seller buyer squeak secret_key seller_peer buyer_peer price_msat ext offer
      hsk hnonce hpoint hpack hpay
    obtain ⟨hsh, hnc, hpr⟩ := package_offer_fields _ _ _ _ hpack
    have hsh' : offer.squeak_hash = get_hash squeak := hsh
    have hnc' : offer.nonce = seller.generated_tweak := hnc
    have hpre : (buyer.lightning_client.pay_invoice_sync offer.payment_request).payment_preimage
        = add_tweak secret_key seller.generated_tweak := by
      rw [hpr]
      exact hpay
    have hlen : (add_tweak secret_key seller.generated_tweak).length = 32 := by
      simp [add_tweak, natToBytes_length]
    have hne : (add_tweak secret_key seller.generated_tweak) ≠ [] := by
      intro hc
      rw [hc] at hlen
      simp at hlen
    have hsub : subtract_tweak (add_tweak secret_key seller.generated_tweak)
        seller.generated_tweak = secret_key := tweak_roundtrip _ _ hsk hnonce
    have hro : buyer.unpack_offer squeak offer buyer_peer =
        Except.ok
          { received_offer_id := none
            squeak_hash := offer.squeak_hash
            price_msat := (buyer.lightning_client.decode_pay_req offer.payment_request).num_msat
            payment_hash := (buyer.lightning_client.decode_pay_req offer.payment_request).payment_hash
            nonce := offer.nonce
            payment_point := squeak.paymentPoint
            invoice_timestamp := (buyer.lightning_client.decode_pay_req offer.payment_request).timestamp
            invoice_expiry := (buyer.lightning_client.decode_pay_req offer.payment_request).expiry
            payment_request := offer.payment_request
            destination := (buyer.lightning_client.decode_pay_req offer.payment_request).destination
            lightning_address :=
              { host := if offer.host = "" then buyer_peer.host else offer.host
                port := offer.port }
            peer_address := buyer_peer } := by
      simp [SqueakCore.unpack_offer, hsh']
    refine ⟨_,
      { sent_payment_id := none
        created_time_ms := none
        peer_address := { host := buyer_peer.host, port := buyer_peer.port }
        squeak_hash := offer.squeak_hash
        payment_hash := (buyer.lightning_client.decode_pay_req offer.payment_request).payment_hash
        secret_key := secret_key
        price_msat := (buyer.lightning_client.decode_pay_req offer.payment_request).num_msat
        node_pubkey := (buyer.lightning_client.decode_pay_req offer.payment_request).destination
        valid := true },
      hro, ?_, rfl, rfl⟩
    simp [SqueakCore.pay_offer, hpre, hne, hnc', hsub, hpoint]
  · intro a t ha ht
    exact tweak_roundtrip a t ha ht

theorem get_payment_stream_eq (f : Bytes → SentOffer) (invs : List Invoice)
    (t : StreamTermination) :
    get_payment_stream f invs t =
      ((invs.filter (fun i => i.settled)).map
         (fun i => mkReceivedPayment (f i.r_hash) i.settle_index),
       match t with
       | StreamTermination.rpcFailed => some CoreError.invoiceSubscriptionError
       | _ => none) := by
  induction invs with
  | nil => rfl
  | cons i rest ih =>
    rw [get_payment_stream, ih]
    by_cases hs : i.settled = true
    · simp [hs, List.filter_cons]
    · simp [hs, List.filter_cons]

/-- C8: over any delivered invoice sequence, get_received_payments yields one
ReceivedPayment per settled invoice, built from the SentOffer returned by the
lookup function on the invoice r_hash (its squeak_hash, payment_hash,
price_msat, peer_address) together with the settle_index of that invoice; the
stream ends with no error when the subscription is exhausted or cancelled,
and with InvoiceSubscriptionError on any other transport error. -/
theorem get_received_payments_spec (core : SqueakCore) (latest_settle_index : Nat)
    (get_sent_offer_fn : Bytes → SentOffer) :
    core.get_received_payments latest_settle_index get_sent_offer_fn =
      (((core.lightning_client.subscribe_invoices latest_settle_index).invoices.filter
          (fun i => i.settled)).map
         (fun i => mkReceivedPayment (get_sent_offer_fn i.r_hash) i.settle_index),
       match (core.lightning_client.subscribe_invoices latest_settle_index).termination with
       | StreamTermination.rpcFailed => some CoreError.invoiceSubscriptionError
       | _ => none) := by
  unfold SqueakCore.get_received_payments
  exact get_payment_stream_eq _ _ _

/-- Version message of the wire protocol; only the nonce field consulted by
the duplicate detection is modelled. -/
structure VersionMessage where
  nNonce : Nat
  deriving DecidableEq, Repr

/-- A peer as seen by the connection manager: its address, its local version
message when the handshake has sent one (None before that, the only falsy
value of the field), and the nonce echoed by the remote version. -/
structure Peer where
  address : PeerAddress
  local_version : Option VersionMessage
  remote_version : Nat
  deriving DecidableEq, Repr

/-- Errors raised by ConnectionManager
(squeaknode/network/connection_manager.py). -/
inductive CMError where
  | duplicatePeer
  | duplicateNonce
  | missingPeer
  deriving DecidableEq, Repr

/-- State of ConnectionManager: the peers dict, an insertion-ordered map from
address to peer, modelled as an association list. -/
structure ConnectionManager where
  _peers : List (PeerAddress × Peer)
  deriving DecidableEq, Repr

/-- ConnectionManager.peers: the list of values of the peers dict. -/
def ConnectionManager.peers (cm : ConnectionManager) : List Peer :=
  cm._peers.map Prod.snd

/-- ConnectionManager.has_connection: membership of the address among the
keys of the peers dict. -/
def ConnectionManager.has_connection (cm : ConnectionManager)
    (address : PeerAddress) : Bool :=
  cm._peers.any (fun kv => kv.1 == address)

/-- ConnectionManager._is_duplicate_nonce: some registered peer has a set
(truthy) local_version whose nonce equals the remote_version of the incoming
peer. -/
def ConnectionManager._is_duplicate_nonce (cm : ConnectionManager)
    (peer : Peer) : Bool :=
  cm.peers.any (fun other_peer =>
    match other_peer.local_version with
    | some v => peer.remote_version == v.nNonce
    | none => false)

/-- Assignment into a Python dict: replace in place if the key exists,
append otherwise. -/
def dictInsert (m : List (PeerAddress × Peer)) (k : PeerAddress) (v : Peer) :
    List (PeerAddress × Peer) :=
  if m.any (fun kv => kv.1 == k) then
    m.map (fun kv => if kv.1 == k then (k, v) else kv)
  else
    m ++ [(k, v)]

/-- ConnectionManager.add_peer: reject a duplicate nonce, then a duplicate
address, then insert.  An error leaves the map unchanged (the caller keeps
the old state). -/
def ConnectionManager.add_peer (cm : ConnectionManager) (peer : Peer) :
    Except CMError ConnectionManager :=
  if cm._is_duplicate_nonce peer then
    Except.error CMError.duplicateNonce
  else if cm.has_connection peer.address then
    Except.error CMError.duplicatePeer
  else
    Except.ok { _peers := dictInsert cm._peers peer.address peer }

/-- ConnectionManager.remove_peer: fail when the address is absent, delete
the entry otherwise. -/
def ConnectionManager.remove_peer (cm : ConnectionManager) (peer : Peer) :
    Except CMError ConnectionManager :=
  if cm.has_connection peer.address = false then
    Except.error CMError.missingPeer
  else
    Except.ok { _peers := cm._peers.filter (fun kv => kv.1 != peer.address) }

theorem is_duplicate_nonce_iff (cm : ConnectionManager) (p : Peer) :
    cm._is_duplicate_nonce p = true ↔
      ∃ q ∈ cm.peers, ∃ v, q.local_version = some v ∧ p.remote_version = v.nNonce := by
  rw [ConnectionManager._is_duplicate_nonce, List.any_eq_true]
  constructor
  · rintro ⟨q, hq, hmatch⟩
    match hv : q.local_version with
    | some v =>
      rw [hv] at hmatch
      exact ⟨q, hq, v, hv, by simpa using hmatch⟩
    | none =>
      rw [hv] at hmatch
      simp at hmatch
  · rintro ⟨q, hq, v, hv, hnonce⟩
    exact ⟨q, hq, by simp [hv, hnonce]⟩

theorem has_connection_false_insert (cm : ConnectionManager) (p : Peer)
    (h : cm.has_connection p.address = false) :
    dictInsert cm._peers p.address p = cm._peers ++ [(p.address, p)] := by
  rw [dictInsert, if_neg]
  rw [ConnectionManager.has_connection] at h
  simp [h]

/-- C6: add_peer fails with DuplicateNonce, without touching the map, when
some registered peer has a set local_version whose nonce equals the incoming
remote_version; otherwise it fails with DuplicatePeer, map unchanged, when
the address is already a key; only when neither check fires is the peer
appended to the map.  Errors return no new state, so the map is never
mutated on failure. -/
theorem add_peer_duplicate_detection (cm : ConnectionManager) (p : Peer) :
    ((∃ q ∈ cm.peers, ∃ v, q.local_version = some v ∧ p.remote_version = v.nNonce) →
       cm.add_peer p = Except.error CMError.duplicateNonce) ∧
    (¬ (∃ q ∈ cm.peers, ∃ v, q.local_version = some v ∧ p.remote_version = v.nNonce) →
       cm.has_connection p.address = true →
       cm.add_peer p = Except.error CMError.duplicatePeer) ∧
    (¬ (∃ q ∈ cm.peers, ∃ v, q.local_version = some v ∧ p.remote_version = v.nNonce) →
       cm.has_connection p.address = false →
       cm.add_peer p = Except.ok { _peers := cm._peers ++ [(p.address, p)] }) := by
  refine ⟨?_, ?_, ?_⟩
  · intro hdup
    rw [ConnectionManager.add_peer, if_pos ((is_duplicate_nonce_iff cm p).mpr hdup)]
  · intro hdup hconn
    have hd : cm._is_duplicate_nonce p = false := by
      rcases Bool.eq_false_or_eq_true (cm._is_duplicate_nonce p) with h | h
      · exact absurd ((is_duplicate_nonce_iff cm p).mp h) hdup
      · exact h
    rw [ConnectionManager.add_peer, hd]
    simp [hconn]
  · intro hdup hconn
    have hd : cm._is_duplicate_nonce p = false := by
      rcases Bool.eq_false_or_eq_true (cm._is_duplicate_nonce p) with h | h
      · exact absurd ((is_duplicate_nonce_iff cm p).mp h) hdup
      · exact h
    rw [ConnectionManager.add_peer, hd]
    simp [hconn, has_connection_false_insert cm p hconn]

/-- C10: the duplicate-nonce check skips every registered peer whose
local_version is unset (falsy), so in a state where no registered peer has a
local_version, add_peer can never fail with DuplicateNonce, whatever the
remote_version of the incoming peer: inbound peers registered before their
version handshake completes are invisible to self-connect detection. -/
theorem add_peer_ignores_unset_local_version (cm : ConnectionManager) (p : Peer)
    (h : ∀ q ∈ cm.peers, q.local_version = none) :
    cm.add_peer p ≠ Except.error CMError.duplicateNonce := by
  have hd : cm._is_duplicate_nonce p = false := by
    rw [ConnectionManager._is_duplicate_nonce, List.any_eq_false]
    intro q hq
    simp [h q hq]
  rw [ConnectionManager.add_peer, hd]
  by_cases hc : cm.has_connection p.address <;> simp [hc]

/-- One call made against the connection manager. -/
inductive CMOp where
  | add (p : Peer)
  | remove (p : Peer)
  deriving DecidableEq, Repr

/-- Outcome of one call, as observed by the caller. -/
inductive CMEvent where
  | addedOk (p : Peer)
  | addFailed (p : Peer)
  | removedOk (p : Peer)
  | removeFailed (p : Peer)
  deriving DecidableEq, Repr

/-- Apply one call: an exception leaves the manager unchanged. -/
def stepOp (cm : ConnectionManager) : CMOp → ConnectionManager × CMEvent
  | CMOp.add p =>
    match cm.add_peer p with
    | Except.ok cm2 => (cm2, CMEvent.addedOk p)
    | Except.error _ => (cm, CMEvent.addFailed p)
  | CMOp.remove p =>
    match cm.remove_peer p with
    | Except.ok cm2 => (cm2, CMEvent.removedOk p)
    | Except.error _ => (cm, CMEvent.removeFailed p)

/-- Run a sequence of calls from a given state, recording the outcome of
each call. -/
def runOpsAux (cm : ConnectionManager) : List CMOp → ConnectionManager × List CMEvent
  | [] => (cm, [])
  | op :: ops =>
    let s := stepOp cm op
    let r := runOpsAux s.1 ops
    (r.1, s.2 :: r.2)

/-- Run a sequence of calls from the empty manager. -/
def runOpsEv (ops : List CMOp) : ConnectionManager × List CMEvent :=
  runOpsAux { _peers := [] } ops

/-- Reference map following the spec words, from a given accumulator: the
peers successfully added and not subsequently removed, in order. -/
def survivorsFrom (acc : List (PeerAddress × Peer)) :
    List CMEvent → List (PeerAddress × Peer)
  | [] => acc
  | CMEvent.addedOk p :: evs => survivorsFrom (acc ++ [(p.address, p)]) evs
  | CMEvent.removedOk p :: evs =>
    survivorsFrom (acc.filter (fun kv => kv.1 != p.address)) evs
  | _ :: evs => survivorsFrom acc evs

/-- Reference map following the spec words: exactly the peers successfully
added and not subsequently removed. -/
def survivors (evs : List CMEvent) : List (PeerAddress × Peer) :=
  survivorsFrom [] evs

/-- Directional version-nonce freedom between an earlier entry and a later
entry of the map: the remote_version of the later one differs from the nonce
of the set local_version of the earlier one.  This is the orientation
_is_duplicate_nonce checks when the later peer is added. -/
def nonceFree (a b : PeerAddress × Peer) : Prop :=
  ∀ v, a.2.local_version = some v → b.2.remote_version ≠ v.nNonce

/-- State invariant of the peers map: pairwise distinct addresses and
pairwise directional version-nonce freedom in insertion order. -/
def cmInv (l : List (PeerAddress × Peer)) : Prop :=
  l.Pairwise (fun a b => a.1 ≠ b.1) ∧ l.Pairwise nonceFree

theorem add_peer_ok_eq (cm : ConnectionManager) (p : Peer) (cm2 : ConnectionManager)
    (h : cm.add_peer p = Except.ok cm2) :
    cm._is_duplicate_nonce p = false ∧ cm.has_connection p.address = false ∧
      cm2._peers = cm._peers ++ [(p.address, p)] := by
  rw [ConnectionManager.add_peer] at h
  by_cases h1 : cm._is_duplicate_nonce p
  · rw [if_pos h1] at h
    exact absurd h (by simp)
  · rw [if_neg h1] at h
    by_cases h2 : cm.has_connection p.address
    · rw [if_pos h2] at h
      exact absurd h (by simp)
    · rw [if_neg h2] at h
      rw [Except.ok.injEq] at h
      subst h
      refine ⟨by simpa using h1, by simpa using h2, ?_⟩
      exact has_connection_false_insert cm p (by simpa using h2)

theorem remove_peer_ok_eq (cm : ConnectionManager) (p : Peer) (cm2 : ConnectionManager)
    (h : cm.remove_peer p = Except.ok cm2) :
    cm2._peers = cm._peers.filter (fun kv => kv.1 != p.address) := by
  rw [ConnectionManager.remove_peer] at h
  by_cases hc : cm.has_connection p.address = false
  · rw [if_pos hc] at h
    exact absurd h (by simp)
  · rw [if_neg hc] at h
    rw [Except.ok.injEq] at h
    subst h
    rfl

theorem cmInv_add (cm : ConnectionManager) (p : Peer)
    (h1 : cm._is_duplicate_nonce p = false)
    (h2 : cm.has_connection p.address = false)
    (hinv : cmInv cm._peers) :
    cmInv (cm._peers ++ [(p.address, p)]) := by
  obtain ⟨haddr, hnonce⟩ := hinv
  rw [ConnectionManager.has_connection, List.any_eq_false] at h2
  have h1e : ∀ q ∈ cm.peers, ∀ v, q.local_version = some v → p.remote_version ≠ v.nNonce := by
    intro q hq v hv hcontra
    have : cm._is_duplicate_nonce p = true :=
      (is_duplicate_nonce_iff cm p).mpr ⟨q, hq, v, hv, hcontra⟩
    rw [h1] at this
    exact absurd this (by simp)
  constructor
  · rw [List.pairwise_append]
    refine ⟨haddr, by simp, ?_⟩
    intro a ha b hb
    rw [List.mem_singleton] at hb
    subst hb
    have := h2 a ha
    simpa using this
  · rw [List.pairwise_append]
    refine ⟨hnonce, by simp, ?_⟩
    intro a ha b hb
    rw [List.mem_singleton] at hb
    subst hb
    intro v hv
    exact h1e a.2 (List.mem_map_of_mem Prod.snd ha) v hv
  
theorem cmInv_filter (l : List (PeerAddress × Peer)) (f : PeerAddress × Peer → Bool)
    (hinv : cmInv l) : cmInv (l.filter f) :=
  ⟨hinv.1.sublist (List.filter_sublist l), hinv.2.sublist (List.filter_sublist l)⟩

theorem runOpsAux_inv (ops : List CMOp) (cm : ConnectionManager)
    (hinv : cmInv cm._peers) :
    cmInv (runOpsAux cm ops).1._peers ∧
      (runOpsAux cm ops).1._peers = survivorsFrom cm._peers (runOpsAux cm ops).2 := by
  induction ops generalizing cm with
  | nil => exact ⟨hinv, rfl⟩
  | cons op ops ih =>
    cases op with
    | add p =>
      cases hstep : cm.add_peer p with
      | ok cm2 =>
        obtain ⟨h1, h2, he⟩ := add_peer_ok_eq cm p cm2 hstep
        have hinv2 : cmInv cm2._peers := by
          rw [he]
          exact cmInv_add cm p h1 h2 hinv
        have := ih cm2 hinv2
        simpa [runOpsAux, stepOp, hstep, survivorsFrom, he] using this
      | error e =>
        have := ih cm hinv
        simpa [runOpsAux, stepOp, hstep, survivorsFrom] using this
    | remove p =>
      cases hstep : cm.remove_peer p with
      | ok cm2 =>
        have he := remove_peer_ok_eq cm p cm2 hstep
        have hinv2 : cmInv cm2._peers := by
          rw [he]
          exact cmInv_filter _ _ hinv
        have := ih cm2 hinv2
        simpa [runOpsAux, stepOp, hstep, survivorsFrom, he] using this
      | error e =>
        have := ih cm hinv
        simpa [runOpsAux, stepOp, hstep, survivorsFrom] using this

/-- C7 (amended): after any finite sequence of add_peer and remove_peer
calls starting from the empty manager, the peers map contains exactly the
peers whose add succeeded and that were not subsequently removed (it equals
the reference map replayed from the recorded outcomes); no two entries share
an address; and every pair of entries is version-nonce free in insertion
order: the remote_version of the later-added entry differs from the nonce of
any set local_version of an earlier-added entry.  Also remove_peer fails
with MissingPeer exactly when the address of the peer is not a key of the
map, and deletes that key otherwise.  The unordered two-sided version of the
nonce claim is refuted by connection_manager_nonce_relation_counterexample:
the code never compares the local_version of the incoming peer against the
remote_version of already registered peers. -/
theorem connection_manager_set_invariant :
    (∀ ops : List CMOp,
       (runOpsEv ops).1._peers = survivors (runOpsEv ops).2 ∧
       (runOpsEv ops).1._peers.Pairwise (fun a b => a.1 ≠ b.1) ∧
       (runOpsEv ops).1._peers.Pairwise nonceFree) ∧
    (∀ (cm : ConnectionManager) (p : Peer),
       cm.remove_peer p =
         if cm.has_connection p.address then
           Except.ok { _peers := cm._peers.filter (fun kv => kv.1 != p.address) }
         else Except.error CMError.missingPeer) := by
  constructor
  · intro ops
    have hstart : cmInv (ConnectionManager.mk [])._peers := by
      constructor <;> exact List.Pairwise.nil
    have h := runOpsAux_inv ops { _peers := [] } hstart
    exact ⟨h.2, h.1.1, h.1.2⟩
  · intro cm p
    rw [ConnectionManager.remove_peer]
    by_cases hc : cm.has_connection p.address
    · simp [hc]
    · simp [hc]

/-- First peer of the counterexample run: registered first, with no
local_version yet and remote_version 5. -/
def cmCexP : Peer :=
  { address := { host := "a", port := 1 }, local_version := none, remote_version := 5 }

/-- Second peer of the counterexample run: a fresh address, a local_version
whose nonce is 5 (the remote_version of the first peer) and remote_version 9. -/
def cmCexQ : Peer :=
  { address := { host := "b", port := 2 },
    local_version := some { nNonce := 5 }, remote_version := 9 }

/-- The counterexample run: both adds succeed. -/
def cmCexOps : List CMOp := [CMOp.add cmCexP, CMOp.add cmCexQ]

/-- C7 counterexample: a reachable map (both adds succeed) holding two
distinct entries related by the version-nonce relation, so the claim that no
two entries of the map are ever so related is false: _is_duplicate_nonce
only checks the incoming remote_version against existing local nonces, and
here the local nonce of the later peer equals the remote_version of the
earlier one. -/
theorem connection_manager_nonce_relation_counterexample :
    ∃ x ∈ (runOpsEv cmCexOps).1.peers, ∃ y ∈ (runOpsEv cmCexOps).1.peers,
      x ≠ y ∧ ∃ v, y.local_version = some v ∧ x.remote_version = v.nNonce := by
  refine ⟨cmCexP, by decide, cmCexQ, by decide, by decide,
    ⟨{ nNonce := 5 }, by decide, by decide⟩⟩

/-- Retry sleep of the verifier, in seconds
(squeaknode/node/sent_offers_verifier.py). -/
def LND_CONNECT_RETRY_S : Nat := 10

/-- Seller-side offer row as the verifier reads it from storage
(squeaknode/server namespace): only the fields _record_payment consumes. -/
structure ServerSentOffer where
  squeak_hash : Bytes
  preimage_hash : Bytes
  price_msat : Nat
  deriving DecidableEq, Repr

/-- Received-payment row the verifier persists
(squeaknode/server/received_payment.py). -/
structure ServerReceivedPayment where
  received_payment_id : Option Nat
  created : Option Nat
  squeak_hash : Bytes
  preimage_hash : Bytes
  price_msat : Nat
  settle_index : Nat
  deriving DecidableEq, Repr

/-- Storage collaborator of the verifier; the hex encoding of the r_hash key
is absorbed into the abstract lookup. -/
structure VerifierDb where
  get_latest_settle_index : Option Nat
  get_sent_offer_by_preimage_hash : Bytes → ServerSentOffer

/-- One opened invoice subscription as the verifier observes it: the
invoices delivered before the iteration either completes or raises.  The
bare except of try_processing catches any exception, so a single flag
records whether the subscription attempt raised. -/
structure SubscriptionRun where
  invoices : List Invoice
  raises : Bool
  deriving DecidableEq, Repr

/-- SentOffersVerifier._record_payment: build the row to persist from the
stored sent offer. -/
def record_payment (db : VerifierDb) (preimage_hash : Bytes) (settle_index : Nat) :
    ServerReceivedPayment :=
  let sent_offer := db.get_sent_offer_by_preimage_hash preimage_hash
  { received_payment_id := none
    created := none
    squeak_hash := sent_offer.squeak_hash
    preimage_hash := sent_offer.preimage_hash
    price_msat := sent_offer.price_msat
    settle_index := settle_index }

/-- SentOffersVerifier.verify_sent_offer: record a payment for a settled
invoice, nothing for an unsettled one. -/
def verify_sent_offer (db : VerifierDb) (invoice : Invoice) :
    Option ServerReceivedPayment :=
  if invoice.settled then
    some (record_payment db invoice.r_hash invoice.settle_index)
  else
    none

/-- SentOffersVerifier.try_processing: read the latest settle index (0 when
storage has none), consume the subscription, record a payment per settled
invoice; when the attempt raises, sleep the full retry delay.  The result is
the list of rows persisted and the seconds slept. -/
def try_processing (db : VerifierDb) (run : SubscriptionRun) :
    List ServerReceivedPayment × Nat :=
  let _latest_settle_index := db.get_latest_settle_index.getD 0
  let recorded := run.invoices.filterMap (verify_sent_offer db)
  if run.raises then
    (recorded, LND_CONNECT_RETRY_S)
  else
    (recorded, 0)

/-- Whether one turn of the while loop of process_subscribed_invoices hands
control back (exits the loop) or runs again. -/
inductive LoopOutcome where
  | keepRunning
  | exited
  deriving DecidableEq, Repr

/-- One iteration of SentOffersVerifier.process_subscribed_invoices, which
is literally a while True around try_processing.  The stop_requested
parameter models the external cooperative stop signal the surrounding worker
could raise; the loop body, translated from the code, never consults it: the
guard is the constant True, so the outcome is always keepRunning, and the
sleep of the error path is the full retry delay. -/
def process_subscribed_invoices_step (stop_requested : Bool) (db : VerifierDb)
    (run : SubscriptionRun) : LoopOutcome × List ServerReceivedPayment × Nat :=
  let r := try_processing db run
  (LoopOutcome.keepRunning, r.1, r.2)

/-- Concrete storage for the counterexample run. -/
def cexDb : VerifierDb :=
  { get_latest_settle_index := none
    get_sent_offer_by_preimage_hash := fun _ =>
      { squeak_hash := [], preimage_hash := [], price_msat := 0 } }

/-- Concrete failing subscription for the counterexample run. -/
def cexRun : SubscriptionRun := { invoices := [], raises := true }

/-- C9 counterexample: with the stop signal raised and a failing
subscription, the loop iteration still reports keepRunning (it does not exit
at the iteration boundary) and sleeps the full 10-second retry delay (the
sleep is not short-circuited), so the claimed cooperative-stop behaviour is
false on the code. -/
theorem verifier_stop_signal_counterexample :
    (process_subscribed_invoices_step true cexDb cexRun).1 = LoopOutcome.keepRunning ∧
      (process_subscribed_invoices_step true cexDb cexRun).2.2 = 10 :=
  ⟨rfl, rfl⟩

/-- C9 (amended): process_subscribed_invoices has no stop signal at all:
whatever the state of the external stop request, every iteration of the
while True loop reports keepRunning (the loop never exits), and when the
subscription attempt raises, try_processing sleeps the full
LND_CONNECT_RETRY_S seconds unconditionally, so nothing short-circuits the
retry sleep and the worker never terminates on its own. -/
theorem verifier_loop_never_exits (stop_requested : Bool) (db : VerifierDb)
    (run : SubscriptionRun) :
    (process_subscribed_invoices_step stop_requested db run).1 = LoopOutcome.keepRunning ∧
      (process_subscribed_invoices_step stop_requested db run).2.2 =
        (if run.raises then LND_CONNECT_RETRY_S else 0) := by
  refine ⟨rfl, ?_⟩
  rw [process_subscribed_invoices_step, try_processing]
  by_cases h : run.raises
  · simp [h]
  · simp [h]

/-- Concrete collaborator record used by the witnesses below. -/
def coreW : SqueakCore :=
  { bitcoin_client := { get_best_block_info := { block_height := 7, block_hash := [1] } }
    lightning_client :=
      { add_invoice := fun _ _ => { r_hash := [4], payment_request := "pr" }
        lookup_invoice := fun _ => { creation_date := 1, expiry := 2 }
        decode_pay_req := fun _ =>
          { payment_hash := [5], num_msat := 3, destination := "d", timestamp := 4, expiry := 5 }
        pay_invoice_sync := fun _ => { payment_preimage := [], payment_error := "e" }
        get_info := { uris := [] }
        subscribe_invoices := fun _ => { invoices := [], termination := StreamTermination.exhausted } }
    now := 11
    generated_tweak := [2]
    payment_point_from_scalar := fun _ => []
    make_squeak_from_str := fun _ _ _ _ _ _ => ({ hash := [], paymentPoint := [] }, []) }

theorem unpack_offer_hash_mismatch_witness :
    coreW.unpack_offer { hash := [1], paymentPoint := [] }
        { squeak_hash := [2], nonce := [], payment_request := "x", host := "", port := 0 }
        { host := "h", port := 1 } =
      Except.error (CoreError.offerHashMismatch [2] [1]) :=
  unpack_offer_hash_mismatch coreW { hash := [1], paymentPoint := [] }
    { squeak_hash := [2], nonce := [], payment_request := "x", host := "", port := 0 }
    { host := "h", port := 1 } (by decide)

theorem make_squeak_spec_witness :
    (coreW.make_squeak { private_key := none } "c" none =
        Except.error CoreError.profileNotSigning) ∧
      coreW.make_squeak { private_key := some "k" } "c" none =
        Except.ok (coreW.make_squeak_from_str { key := "k" } "c" 7 [1] 11 none) :=
  ⟨make_squeak_spec.1 coreW { private_key := none } "c" none rfl,
    make_squeak_spec.2 coreW { private_key := some "k" } "c" none "k" rfl⟩

/-- Concrete sent offer used by the witness of the address fallback. -/
def soW : SentOffer :=
  { sent_offer_id := none
    squeak_hash := [9]
    payment_hash := [7]
    secret_key := [3]
    nonce := [2]
    price_msat := 5
    payment_request := "pr"
    invoice_time := 0
    invoice_expiry := 0
    peer_address := { host := "p", port := 3 } }

/-- Concrete squeak of the unpack branch of the address-fallback witness. -/
def squeakW5 : CSqueak := { hash := [1], paymentPoint := [] }

/-- Concrete offer with an empty host of the address-fallback witness. -/
def offerW5 : Offer :=
  { squeak_hash := [1], nonce := [], payment_request := "x", host := "", port := 9 }

/-- Concrete peer address of the address-fallback witness. -/
def paW5 : PeerAddress := { host := "ph", port := 3 }

theorem offer_address_fallback_witness :
    (coreW.package_offer soW none =
        Except.ok
          { squeak_hash := [9], nonce := [2], payment_request := "pr", host := "", port := 0 }) ∧
      ∃ ro, coreW.unpack_offer squeakW5 offerW5 paW5 = Except.ok ro ∧
        ro.lightning_address = { host := "ph", port := 9 } := by
  refine ⟨offer_address_fallback.1 coreW soW rfl, ?_⟩
  have h := offer_address_fallback.2 coreW squeakW5 offerW5 paW5 rfl
  simpa [offerW5, paW5] using h

/-- Registered peer of the duplicate-nonce branch of the witness. -/
def qW1 : Peer :=
  { address := { host := "a", port := 1 },
    local_version := some { nNonce := 5 }, remote_version := 3 }

/-- Manager state of the duplicate-nonce branch of the witness. -/
def cmW1 : ConnectionManager := { _peers := [(qW1.address, qW1)] }

/-- Incoming peer of the duplicate-nonce branch of the witness. -/
def pW1 : Peer :=
  { address := { host := "b", port := 2 }, local_version := none, remote_version := 5 }

/-- Registered peer of the duplicate-peer branch of the witness. -/
def qW2 : Peer :=
  { address := { host := "a", port := 1 }, local_version := none, remote_version := 3 }

/-- Manager state of the duplicate-peer branch of the witness. -/
def cmW2 : ConnectionManager := { _peers := [(qW2.address, qW2)] }

/-- Incoming peer of the duplicate-peer and insert branches of the witness. -/
def pW2 : Peer :=
  { address := { host := "a", port := 1 }, local_version := none, remote_version := 5 }

/-- Empty manager of the insert branch of the witness. -/
def cmW3 : ConnectionManager := { _peers := [] }

theorem add_peer_duplicate_detection_witness :
    (cmW1.add_peer pW1 = Except.error CMError.duplicateNonce) ∧
      (cmW2.add_peer pW2 = Except.error CMError.duplicatePeer) ∧
      (cmW3.add_peer pW2 = Except.ok { _peers := [(pW2.address, pW2)] }) := by
  refine ⟨?_, ?_, ?_⟩
  · exact (add_peer_duplicate_detection cmW1 pW1).1
      ⟨qW1, by decide, { nNonce := 5 }, rfl, rfl⟩
  · refine (add_peer_duplicate_detection cmW2 pW2).2.1 ?_ (by decide)
    rintro ⟨q, hq, v, hv, hn⟩
    have hq2 : q = qW2 := by
      simpa [cmW2, ConnectionManager.peers] using hq
    rw [hq2] at hv
    cases hv
  · have h3 := (add_peer_duplicate_detection cmW3 pW2).2.2 ?_ (by decide)
    · simpa [cmW3] using h3
    · rintro ⟨q, hq, v, hv, hn⟩
      simp [cmW3, ConnectionManager.peers] at hq

theorem add_peer_ignores_unset_local_version_witness :
    ConnectionManager.add_peer
        { _peers := [({ host := "a", port := 1 },
            { address := { host := "a", port := 1 },
              local_version := none, remote_version := 5 })] }
        { address := { host := "b", port := 2 }, local_version := none, remote_version := 5 } ≠
      Except.error CMError.duplicateNonce :=
  add_peer_ignores_unset_local_version _ _ (by decide)

/-- Zero prefix of the concrete 32-byte scalars of the key-recovery witness. -/
def z31 : Bytes := List.replicate 31 0

/-- Concrete secret key of the key-recovery witness, value 1. -/
def skW : Bytes := z31 ++ [1]

/-- Concrete nonce of the key-recovery witness, value 2. -/
def tweakW : Bytes := z31 ++ [2]

/-- Concrete seller and buyer collaborator record of the key-recovery
witness: paying the invoice reveals exactly the stored preimage. -/
def sellerW : SqueakCore :=
  { bitcoin_client := { get_best_block_info := { block_height := 0, block_hash := [] } }
    lightning_client :=
      { add_invoice := fun _ _ => { r_hash := [7], payment_request := "pr" }
        lookup_invoice := fun _ => { creation_date := 0, expiry := 0 }
        decode_pay_req := fun _ =>
          { payment_hash := [5], num_msat := 3, destination := "d", timestamp := 4, expiry := 5 }
        pay_invoice_sync := fun _ => { payment_preimage := add_tweak skW tweakW, payment_error := "" }
        get_info := { uris := [] }
        subscribe_invoices := fun _ => { invoices := [], termination := StreamTermination.exhausted } }
    now := 0
    generated_tweak := tweakW
    payment_point_from_scalar := fun _ => [6]
    make_squeak_from_str := fun _ _ _ _ _ _ => ({ hash := [], paymentPoint := [] }, []) }

/-- Concrete squeak of the key-recovery witness; its payment point is the
point of the concrete secret key. -/
def squeakW : CSqueak := { hash := [9], paymentPoint := [6] }

theorem key_recovery_law_witness :
    (∃ ro sp,
       sellerW.unpack_offer squeakW
           { squeak_hash := [9], nonce := tweakW, payment_request := "pr", host := "h", port := 1 }
           { host := "bp", port := 2 } = Except.ok ro ∧
       sellerW.pay_offer ro = Except.ok sp ∧
       sp.secret_key = skW ∧ sp.valid = true) ∧
      subtract_tweak (add_tweak skW tweakW) tweakW = skW :=
  ⟨key_recovery_law.1 sellerW sellerW squeakW skW { host := "sp", port := 3 }
      { host := "bp", port := 2 } 100 (some { host := "h", port := 1 })
      { squeak_hash := [9], nonce := tweakW, payment_request := "pr", host := "h", port := 1 }
      (by decide) (by decide) rfl rfl rfl,
    key_recovery_law.2 skW tweakW (by decide) (by decide)⟩
